import Mathlib

/-!
Verification development for the telecom log/PCAP analysis backend
(`python_backend`): a shallow embedding in Lean 4 of the pure core of
`services/log_parser.py`, `services/pcap_analyzer.py`,
`services/milvus_service.py` and the background pipeline `process_log_file`
of `app.py`, together with theorems settling the specified properties.

Conventions of the embedding:
* Python strings are Lean `String`s (lists of characters); `len` on a string
  is the character count, which matches Lean's `String.length`.
* Python floats are modelled as exact rationals (`Rat`).  The thresholds
  compared against (`0.5`, `3`, `10`, `0.3`, `0.6`, `500`) are far from any
  rounding boundary at the integer ranges involved, so exact rational
  arithmetic and Python float arithmetic agree on every comparison made.
* `round(x, 2)` and ISO-8601 date rendering are presentation-only
  transformations of fields no specified property depends on; the embedding
  keeps the underlying exact values instead.
* Fallible calls (HTTP services, pcap libraries) are modelled with
  `Except String`; a raised Python exception is an `Except.error`.
-/

namespace LogParser

/-- The line boundaries Python `str.splitlines` recognises besides `'\n'`
and `'\r'`: vertical tab, form feed, the file/group/record separators,
next line, and the Unicode line/paragraph separators.  Each of them ends a
line on its own (only `"\r\n"` pairs). -/
def isOtherBreakC (c : Char) : Bool :=
  c.toNat = 0x0b || c.toNat = 0x0c || c.toNat = 0x1c || c.toNat = 0x1d ||
    c.toNat = 0x1e || c.toNat = 0x85 || c.toNat = 0x2028 || c.toNat = 0x2029

/-- Python `str.splitlines`: lines are ended by `'\n'`, `"\r\n"`, `'\r'`
or any of the further boundary characters of `isOtherBreakC`.  As in
Python, a trailing line boundary does not produce a final empty line, and
`"".splitlines() = []`.  `acc` holds the current line, reversed;
`afterCR` records that the previous character was a carriage return whose
line was already emitted, so a directly following `'\n'` belongs to the
same `"\r\n"` boundary and is skipped. -/
def splitLinesCore : List Char → List Char → Bool → List String
  | [], acc, _ => if acc.isEmpty then [] else [String.mk acc.reverse]
  | c :: rest, acc, afterCR =>
    if afterCR ∧ c = '\n' then splitLinesCore rest acc false
    else if c = '\n' then String.mk acc.reverse :: splitLinesCore rest [] false
    else if c = '\r' then String.mk acc.reverse :: splitLinesCore rest [] true
    else if isOtherBreakC c then String.mk acc.reverse :: splitLinesCore rest [] false
    else splitLinesCore rest (c :: acc) false

/-- `content.splitlines()` as used throughout `log_parser.py`. -/
def splitlines (s : String) : List String :=
  splitLinesCore s.data [] false

/-- Python `"\n".join(chunks)`. -/
def joinNl : List String → String
  | [] => ""
  | [a] => a
  | a :: b :: t => a ++ "\n" ++ joinNl (b :: t)

/-- The grouping loop of `LogParser.segment_log_for_embedding`
(`log_parser.py` lines 103-129), with each chunk kept as its list of lines
(the source joins a chunk with `"\n".join` at the moment it is closed; the
embedding applies `joinNl` to every group at the end, which is the same).
State: `cur` is `current_segment`, `curLen` is `current_length`. -/
def segmentGroups (maxB : Nat) : List String → List String → Nat → List (List String)
  | [], cur, _ => if cur.isEmpty then [] else [cur]
  | line :: rest, cur, curLen =>
    if curLen + line.length > maxB ∧ ¬cur.isEmpty then
      cur :: segmentGroups maxB rest [line] line.length
    else
      segmentGroups maxB rest (cur ++ [line]) (curLen + line.length)

/-- `LogParser.segment_log_for_embedding(content, max_chunk_size)`
(`log_parser.py` lines 103-129).  Default `max_chunk_size` in the source
is 512. -/
def segment_log_for_embedding (content : String) (maxB : Nat) : List String :=
  (segmentGroups maxB (splitlines content) [] 0).map joinNl

end LogParser

namespace LogParser

/-!
Embedding of the five `re` patterns of `log_parser.py` (lines 10-54).

A matcher consumes a prefix of the character list and returns the consumed
characters together with the rest, or `none`.  Quantified sub-expressions
(`+`, `*`, `{n}`) are matched greedily without backtracking; this is exact
for these five patterns because in each of them the character class under a
quantifier is disjoint from the character the pattern requires next
(`\d`/`\w`/`[A-Z]`/`[A-Z0-9-]`/`[^\]]` runs are always followed by a
required character outside the class), so shortening a greedy run can never
turn a failure into a success, and each optional group is followed by
material that always succeeds (`(.*)`), so a successful optional never has
to be retried.
-/

/-- A prefix matcher: consumed characters and remainder, or failure. -/
abbrev Matcher := List Char → Option (List Char × List Char)

/-- Python `\d` (ASCII inputs). -/
def isDigitC (c : Char) : Bool := c.isDigit

/-- Python `\s`: `[ \t\n\r\f\v]` (ASCII inputs). -/
def isSpaceC (c : Char) : Bool :=
  c = ' ' || c = '\t' || c = '\n' || c = '\r' || c = '\x0b' || c = '\x0c'

/-- Python `\w`: `[a-zA-Z0-9_]` (ASCII inputs). -/
def isWordC (c : Char) : Bool := c.isAlphanum || c = '_'

/-- The class `[A-Z]`. -/
def isUpperC (c : Char) : Bool := 'A' ≤ c && c ≤ 'Z'

/-- The class `[A-Z0-9-]`. -/
def isUpperNumDashC (c : Char) : Bool := isUpperC c || c.isDigit || c = '-'

/-- The class `[^\]]`. -/
def isNotRBracketC (c : Char) : Bool := c ≠ ']'

/-- Greedy `c+` for a character class `c` (one or more). -/
def mClass1 (p : Char → Bool) : Matcher := fun cs =>
  let t := cs.takeWhile p
  if t.isEmpty then none else some (t, cs.drop t.length)

/-- `c{n}` for a character class (exactly `n`). -/
def mExact (n : Nat) (p : Char → Bool) : Matcher := fun cs =>
  let t := cs.take n
  if t.length = n && t.all p then some (t, cs.drop n) else none

/-- A single literal character. -/
def mChar (c : Char) : Matcher := fun cs =>
  match cs with
  | d :: rest => if d = c then some ([d], rest) else none
  | [] => none

/-- One character from a literal set (e.g. `[T ]`, `[+-]`). -/
def mCharIn (l : List Char) : Matcher := fun cs =>
  match cs with
  | d :: rest => if l.contains d then some ([d], rest) else none
  | [] => none

/-- The empty matcher (consumes nothing, always succeeds). -/
def mEps : Matcher := fun cs => some ([], cs)

/-- Sequencing of two matchers. -/
def mSeq (a b : Matcher) : Matcher := fun cs => do
  let (x, r) ← a cs
  let (y, r') ← b r
  pure (x ++ y, r')

/-- Sequencing of a list of matchers. -/
def mSeqs (ms : List Matcher) : Matcher := ms.foldr mSeq mEps

/-- Greedy `(?:...)?`: succeed consuming the group if possible, else consume
nothing. -/
def mOpt (m : Matcher) : Matcher := fun cs => ((m cs).orElse (fun _ => some ([], cs)))

/-- Ordered alternation `a|b`. -/
def mAlt (a b : Matcher) : Matcher := fun cs => ((a cs).orElse (fun _ => b cs))

/-- Greedy `(?:...)*` for a body that consumes at least one character per
iteration (true of every starred body in these patterns); the
progress guard makes the recursion total with `cs.length` as fuel. -/
def mStarAux (m : Matcher) : Nat → List Char → List Char × List Char
  | 0, cs => ([], cs)
  | n + 1, cs =>
    match m cs with
    | some (t, r) =>
      if r.length < cs.length then
        let (t', r') := mStarAux m n r
        (t ++ t', r')
      else ([], cs)
    | none => ([], cs)

/-- Greedy `(?:...)*` as a matcher. -/
def mStar (m : Matcher) : Matcher := fun cs => some (mStarAux m cs.length cs)

/-- `\d{2}:\d{2}:\d{2}`. -/
def mTime : Matcher :=
  mSeqs [mExact 2 isDigitC, mChar ':', mExact 2 isDigitC, mChar ':', mExact 2 isDigitC]

/-- `(?:\.\d+)`. -/
def mFrac : Matcher := mSeqs [mChar '.', mClass1 isDigitC]

/-- `(?:Z|[+-]\d{2}:\d{2})`. -/
def mTZ : Matcher :=
  mAlt (mChar 'Z') (mSeqs [mCharIn ['+', '-'], mExact 2 isDigitC, mChar ':', mExact 2 isDigitC])

/-- An optional group `(?:pre (cap) post)?` capturing `cap`: returns the
captured text (or `none` when the whole group fails and is skipped) and the
remainder. -/
def mOptCapAux (pre cap post : Matcher) (cs : List Char) : Option (List Char × List Char) := do
  let (_, r1) ← pre cs
  let (g, r2) ← cap r1
  let (_, r3) ← post r2
  pure (g, r3)

/-- `mOptCapAux` packaged: captured group as a string, remainder unchanged
on failure. -/
def mOptCap (pre cap post : Matcher) (cs : List Char) : Option String × List Char :=
  match mOptCapAux pre cap post cs with
  | some (g, r) => (some (String.mk g), r)
  | none => (none, cs)

/-- The trailing `(.*)` group: everything up to the end of the line
(`.` does not match `'\n'`). -/
def mRestOfLine (cs : List Char) : String :=
  String.mk (cs.takeWhile (fun c => c ≠ '\n'))

/-- Result of `LogParser.parse_line`: the dict
`{text, timestamp, level, component, message}` (all five patterns always
bind a timestamp; `message` is the `(.*)` group, possibly empty).  The
no-match fallback of `parse_log` carries only `text` and `message`. -/
structure ParsedLine where
  text : String
  timestamp : Option String
  level : Option String
  component : Option String
  message : Option String
deriving DecidableEq, Repr

/-- All five vendor patterns share one skeleton: a mandatory timestamp
group, mandatory `\s+`, two optional captured groups, then the `(.*)`
message group (for the Cisco pattern the two optional groups are the
facility and the message code). -/
def patternShape (tsM : Matcher)
    (cap1 cap2 : List Char → Option String × List Char)
    (line : String) : Option ParsedLine :=
  match tsM line.data with
  | none => none
  | some (ts, r1) =>
    match mClass1 isSpaceC r1 with
    | none => none
    | some (_, r2) =>
      match cap1 r2 with
      | (lvl, r3) =>
        match cap2 r3 with
        | (comp, r4) =>
          some ⟨line, some (String.mk ts), lvl, comp, some (mRestOfLine r4)⟩

/-- `standard_pattern` (`log_parser.py` lines 11-16):
`(\d{4}-\d{2}-\d{2}[T ]\d{2}:\d{2}:\d{2}(?:\.\d+)?(?:Z|[+-]\d{2}:\d{2})?)\s+`
`(?:([A-Z]+)\s+)?(?:\[([^\]]+)\]\s+)?(.*)`. -/
def standard_pattern (line : String) : Option ParsedLine :=
  patternShape
    (mSeqs [mExact 4 isDigitC, mChar '-', mExact 2 isDigitC, mChar '-',
      mExact 2 isDigitC, mCharIn ['T', ' '], mTime, mOpt mFrac, mOpt mTZ])
    (mOptCap mEps (mClass1 isUpperC) (mClass1 isSpaceC))
    (mOptCap (mChar '[') (mClass1 isNotRBracketC)
      (mSeq (mChar ']') (mClass1 isSpaceC)))
    line

/-- `cisco_pattern` (`log_parser.py` lines 19-24):
`(\w+\s+\d+\s+\d{2}:\d{2}:\d{2}(?:\.\d+)?)\s+(?:([A-Z0-9-]+):\s+)?`
`(?:%([A-Z0-9-]+)(?:-\d+)?:\s+)?(.*)`. -/
def cisco_pattern (line : String) : Option ParsedLine :=
  patternShape
    (mSeqs [mClass1 isWordC, mClass1 isSpaceC, mClass1 isDigitC,
      mClass1 isSpaceC, mTime, mOpt mFrac])
    (mOptCap mEps (mClass1 isUpperNumDashC) (mSeq (mChar ':') (mClass1 isSpaceC)))
    (mOptCap (mChar '%') (mClass1 isUpperNumDashC)
      (mSeqs [mOpt (mSeq (mChar '-') (mClass1 isDigitC)), mChar ':', mClass1 isSpaceC]))
    line

/-- `nokia_pattern` (`log_parser.py` lines 27-32):
`(\d{4}/\d{2}/\d{2}\s+\d{2}:\d{2}:\d{2}(?:\.\d+)?)\s+(?:([A-Z]+)\s+)?`
`(?:\[(\w+(?:\-\w+)*)\]\s+)?(.*)`. -/
def nokia_pattern (line : String) : Option ParsedLine :=
  patternShape
    (mSeqs [mExact 4 isDigitC, mChar '/', mExact 2 isDigitC, mChar '/',
      mExact 2 isDigitC, mClass1 isSpaceC, mTime, mOpt mFrac])
    (mOptCap mEps (mClass1 isUpperC) (mClass1 isSpaceC))
    (mOptCap (mChar '[')
      (mSeq (mClass1 isWordC) (mStar (mSeq (mChar '-') (mClass1 isWordC))))
      (mSeq (mChar ']') (mClass1 isSpaceC)))
    line

/-- `huawei_pattern` (`log_parser.py` lines 35-40):
`(\d{4}-\d{2}-\d{2}T\d{2}:\d{2}:\d{2}(?:\.\d+)?)\s+(?:([A-Z]+)\s+)?`
`(?:\[([^\]]+)\]\s+)?(.*)`. -/
def huawei_pattern (line : String) : Option ParsedLine :=
  patternShape
    (mSeqs [mExact 4 isDigitC, mChar '-', mExact 2 isDigitC, mChar '-',
      mExact 2 isDigitC, mChar 'T', mTime, mOpt mFrac])
    (mOptCap mEps (mClass1 isUpperC) (mClass1 isSpaceC))
    (mOptCap (mChar '[') (mClass1 isNotRBracketC)
      (mSeq (mChar ']') (mClass1 isSpaceC)))
    line

/-- `ericsson_pattern` (`log_parser.py` lines 43-48):
`(\d{4}-\d{2}-\d{2}\s+\d{2}:\d{2}:\d{2}(?:\.\d+)?)\s+(?:(\w+)\s+)?`
`(?:(\w+(?:\.\w+)*)\s+)?(.*)`. -/
def ericsson_pattern (line : String) : Option ParsedLine :=
  patternShape
    (mSeqs [mExact 4 isDigitC, mChar '-', mExact 2 isDigitC, mChar '-',
      mExact 2 isDigitC, mClass1 isSpaceC, mTime, mOpt mFrac])
    (mOptCap mEps (mClass1 isWordC) (mClass1 isSpaceC))
    (mOptCap mEps
      (mSeq (mClass1 isWordC) (mStar (mSeq (mChar '.') (mClass1 isWordC))))
      (mClass1 isSpaceC))
    line

/-- `LogParser.parse_line` (`log_parser.py` lines 77-101): try the five
patterns in declaration order; `None` when all fail. -/
def parse_line (line : String) : Option ParsedLine :=
  ((standard_pattern line).orElse fun _ =>
  (cisco_pattern line).orElse fun _ =>
  (nokia_pattern line).orElse fun _ =>
  (huawei_pattern line).orElse fun _ =>
  ericsson_pattern line)

/-- Python `not line.strip()`: the line consists of whitespace only. -/
def isBlank (l : String) : Bool := l.data.all isSpaceC

/-- The loop body of `LogParser.parse_log` (`log_parser.py` lines 56-75):
skip blank lines; parsed lines are appended as-is, unmatched lines fall back
to a record carrying only the original text and message. -/
def parse_log_lines : List String → List ParsedLine
  | [] => []
  | line :: rest =>
    if isBlank line then parse_log_lines rest
    else
      (match parse_line line with
        | some parsed => parsed
        | none => ⟨line, none, none, none, some line⟩) :: parse_log_lines rest

/-- `LogParser.parse_log(content)`. -/
def parse_log (content : String) : List ParsedLine :=
  parse_log_lines (splitlines content)

/-- First branch of `telecom_log_pattern` (`log_parser.py` lines 51-54):
four digits, a dash-or-slash, two digits, a dash-or-slash, two digits,
`[T ]`, then `\d{2}:\d{2}:\d{2}`. -/
def telecom_branch1 : Matcher :=
  mSeqs [mExact 4 isDigitC, mCharIn ['-', '/'], mExact 2 isDigitC, mCharIn ['-', '/'],
    mExact 2 isDigitC, mCharIn ['T', ' '], mTime]

/-- Second branch of `telecom_log_pattern`: `\w+\s+\d+\s+\d{2}:\d{2}:\d{2}`. -/
def telecom_branch2 : Matcher :=
  mSeqs [mClass1 isWordC, mClass1 isSpaceC, mClass1 isDigitC, mClass1 isSpaceC, mTime]

/-- `telecom_log_pattern.search(line)`: the pattern matches at some
position (neither branch matches the empty string, so the empty input
yields `false`, as in Python). -/
def telecomSearch : List Char → Bool
  | [] => false
  | c :: rest =>
    (telecom_branch1 (c :: rest)).isSome || (telecom_branch2 (c :: rest)).isSome ||
      telecomSearch rest

/-- `LogParser.is_valid_telecom_log` (`log_parser.py` lines 131-143): the
first 20 non-blank lines are sampled and at least 50% of them must contain
a timestamp token.  Python compares `matches / len(lines) >= 0.5` in float
arithmetic; for `len(lines) ≤ 20` this is exactly `2 * matches ≥
len(lines)` (no float rounding can cross the `0.5` boundary at these
denominators). -/
def is_valid_telecom_log (content : String) : Bool :=
  let lines := ((splitlines content).filter (fun l => !isBlank l)).take 20
  let found := lines.countP (fun l => telecomSearch l.data)
  decide (lines ≠ [] ∧ 2 * found ≥ lines.length)

end LogParser

namespace PcapAnalyzer

/-!
Embedding of `services/pcap_analyzer.py`.  A decoded packet is modelled by
the per-layer fields the analyzed functions read: capture timestamp, total
length, optional IP layer (source/destination address, IP flags and
fragment offset), optional TCP flags word, optional DNS `qr` field.
Timestamps and derived rates are exact rationals.
-/

/-- The IP-layer fields read by the analyzer. -/
structure IPLayer where
  src : String
  dst : String
  flags : Nat
  frag : Nat
deriving DecidableEq, Repr

/-- A decoded packet (`scapy` view): the fields the analyzed code reads. -/
structure Packet where
  time : Rat
  len : Nat
  ip : Option IPLayer
  tcpFlags : Option Nat
  dnsQR : Option Nat
deriving DecidableEq, Repr

/-- The slice of the `_analyze_protocols` result dict read elsewhere, plus
the `error` key present only in its exception branch.  The free-text
descriptions attached to anomalies render rounded floats and are
presentation-only; the embedding keeps anomaly type and severity. -/
structure ProtocolStats where
  protocol_counts : List (String × Nat)
  protocol_percentages : List (String × Rat)
  layer_counts : List (String × Nat)
  layer_percentages : List (String × Rat)
  analyzed_packets : Nat
  error : Option String
deriving DecidableEq, Repr

/-- One detected anomaly: its `type` and `severity` (the `description`
value formats rounded floats and is presentation-only). -/
structure Anomaly where
  type : String
  severity : String
deriving DecidableEq, Repr

/-- The SYN counter of `_detect_anomalies` (`pcap_analyzer.py` lines
282-285): packets with a TCP layer satisfying the Python truthiness test
`flags & 0x02`, i.e. the SYN bit is set. -/
def syn_count (packets : List Packet) : Nat :=
  packets.countP fun p =>
    match p.tcpFlags with
    | some f => (f &&& 0x02) != 0
    | none => false

/-- The SYN-ACK counter of `_detect_anomalies` (lines 286-287): packets
with a TCP layer satisfying the Python truthiness test `flags & 0x12`,
i.e. AT LEAST ONE of the SYN and ACK bits is set (the source comment says
"SYN+ACK flags", but `&` followed by truthiness does not require both). -/
def syn_ack_count (packets : List Packet) : Nat :=
  packets.countP fun p =>
    match p.tcpFlags with
    | some f => (f &&& 0x12) != 0
    | none => false

/-- The SYN-flood rule of `_detect_anomalies` (lines 289-297). -/
def synFloodAnoms (packets : List Packet) : List Anomaly :=
  if syn_count packets > 0 ∧ syn_ack_count packets > 0 then
    let ratio : Rat := (syn_count packets : Rat) / (syn_ack_count packets : Rat)
    if ratio > 3 ∧ syn_count packets > 100 then
      [⟨"SYN Flood", if ratio > 10 then "high" else "medium"⟩]
    else []
  else []

/-- The ICMP-flood rule of `_detect_anomalies` (lines 299-310). -/
def icmpFloodAnoms (protocol_stats : ProtocolStats) : List Anomaly :=
  match protocol_stats.protocol_counts.lookup "ICMP" with
  | some icmp_count =>
    let total := protocol_stats.analyzed_packets
    if total > 0 then
      let icmp_ratio : Rat := (icmp_count : Rat) / (total : Rat)
      if icmp_ratio > 3 / 10 ∧ icmp_count > 100 then
        [⟨"ICMP Flood", if icmp_ratio > 3 / 5 then "high" else "medium"⟩]
      else []
    else []
  | none => []

/-- The DNS-amplification rule of `_detect_anomalies` (lines 312-325). -/
def dnsAmpAnoms (packets : List Packet) : List Anomaly :=
  let dns_response_sizes := packets.filterMap fun p =>
    match p.dnsQR with
    | some q => if q = 1 then some p.len else none
    | none => none
  if dns_response_sizes ≠ [] then
    let avg : Rat := (dns_response_sizes.sum : Rat) / (dns_response_sizes.length : Rat)
    if avg > 500 ∧ dns_response_sizes.length > 50 then
      [⟨"DNS Amplification", "medium"⟩]
    else []
  else []

/-- The fragmentation rule of `_detect_anomalies` (lines 327-338). -/
def fragAnoms (packets : List Packet) : List Anomaly :=
  let frag_count := packets.countP fun p =>
    match p.ip with
    | some il => (il.flags &&& 0x1) != 0 || il.frag != 0
    | none => false
  if frag_count > 100 then [⟨"IP Fragmentation", "low"⟩] else []

/-- `PcapAnalyzer._detect_anomalies` (`pcap_analyzer.py` lines 274-341):
the four independent heuristic blocks append to one list in source order. -/
def detect_anomalies (packets : List Packet) (protocol_stats : ProtocolStats) :
    List Anomaly :=
  synFloodAnoms packets ++ icmpFloodAnoms protocol_stats ++
    dnsAmpAnoms packets ++ fragAnoms packets

/-- The conversation key of `_analyze_conversations` (`pcap_analyzer.py`
line 155): the endpoint pair canonicalised by Python string `<`, which is
lexicographic code-point order — the order of the character lists.  (The
comparison is written on `.data` because core's `String.decidableLT` does
not evaluate inside the kernel; by `String.lt_iff_toList_lt` it is the
same order.) -/
def convKey (src dst : String) : String :=
  if src.data < dst.data then src ++ "_" ++ dst else dst ++ "_" ++ src

/-- The accumulating per-conversation dict of `_analyze_conversations`
(lines 158-185). -/
structure ConvAcc where
  ip_a : String
  ip_b : String
  packets : Nat
  bytes : Nat
  start_time : Rat
  end_time : Rat
  a_to_b_packets : Nat
  b_to_a_packets : Nat
  a_to_b_bytes : Nat
  b_to_a_bytes : Nat
deriving DecidableEq, Repr

/-- A fresh conversation entry (lines 158-169). -/
def initConv (src dst : String) (t : Rat) : ConvAcc :=
  { ip_a := if src.data < dst.data then src else dst
    ip_b := if src.data < dst.data then dst else src
    packets := 0
    bytes := 0
    start_time := t
    end_time := t
    a_to_b_packets := 0
    b_to_a_packets := 0
    a_to_b_bytes := 0
    b_to_a_bytes := 0 }

/-- Updating a conversation entry for one packet (lines 171-185). -/
def updateConv (src : String) (plen : Nat) (t : Rat) (c : ConvAcc) : ConvAcc :=
  let c := { c with
    packets := c.packets + 1
    bytes := c.bytes + plen
    end_time := max c.end_time t }
  if src = c.ip_a then
    { c with a_to_b_packets := c.a_to_b_packets + 1, a_to_b_bytes := c.a_to_b_bytes + plen }
  else
    { c with b_to_a_packets := c.b_to_a_packets + 1, b_to_a_bytes := c.b_to_a_bytes + plen }

/-- One iteration of the packet loop of `_analyze_conversations` (lines
149-185); the Python dict is an insertion-ordered association list. -/
def convStep (convs : List (String × ConvAcc)) (p : Packet) : List (String × ConvAcc) :=
  match p.ip with
  | none => convs
  | some il =>
    let key := convKey il.src il.dst
    let convs1 :=
      if convs.any fun kc => kc.1 == key then convs
      else convs ++ [(key, initConv il.src il.dst p.time)]
    convs1.map fun kc =>
      if kc.1 == key then (kc.1, updateConv il.src p.len p.time kc.2) else kc

/-- Output record of `_analyze_conversations` (lines 188-201): the
accumulated fields plus derived duration and rates (rendered timestamps and
two-decimal rounding are presentation-only). -/
structure ConvOut extends ConvAcc where
  duration : Rat
  packets_per_sec : Rat
  bytes_per_sec : Rat
deriving DecidableEq, Repr

/-- Derived stats for one conversation (lines 190-198). -/
def mkConvOut (c : ConvAcc) : ConvOut :=
  let duration := c.end_time - c.start_time
  { toConvAcc := c
    duration := duration
    packets_per_sec := if duration > 0 then (c.packets : Rat) / duration else 0
    bytes_per_sec := if duration > 0 then (c.bytes : Rat) / duration else 0 }

/-- `PcapAnalyzer._analyze_conversations` (lines 145-206): accumulate per
canonical endpoint pair, derive stats, sort by `bytes` descending (Python's
sort is stable; so is `mergeSort`), return the top 50. -/
def analyze_conversations (packets : List Packet) : List ConvOut :=
  let convs := packets.foldl convStep []
  let conv_list := convs.map fun kc => mkConvOut kc.2
  (conv_list.mergeSort fun a b => decide (b.bytes ≤ a.bytes)).take 50

/-- A 5-tuple flow record of `_analyze_flows` (lines 234-245). -/
structure Flow where
  src_ip : String
  dst_ip : String
  src_port : String
  dst_port : String
  protocol : String
  packets : Nat
  bytes : Nat
  start_time : Rat
  end_time : Rat
deriving DecidableEq, Repr

/-- The numeric basic-statistics fields of `_get_basic_stats` (lines
55-87). -/
structure BasicStats where
  total_packets : Nat
  capture_duration : Rat
  average_packet_size : Rat
  average_packets_per_second : Rat
  total_bytes : Nat
deriving DecidableEq, Repr

/-- The report assembled by `analyze_pcap` (lines 46-53; the
`analysis_time` wall-clock field is presentation-only). -/
structure PcapReport where
  basic_stats : BasicStats
  protocol_stats : ProtocolStats
  conversations : List ConvOut
  flows : List Flow
  anomalies : List Anomaly
deriving DecidableEq, Repr

/-- The `except` branch of `_analyze_protocols` (lines 134-143): all
sections empty, zero analyzed packets, the error string recorded. -/
def emptyProtocolStats (e : String) : ProtocolStats :=
  ⟨[], [], [], [], 0, some e⟩

/-- `_analyze_protocols` viewed from `analyze_pcap`: the whole body runs
inside `try/except`, so a raising run degrades to the empty stats with the
error recorded (lines 91-143). -/
def analyze_protocols_run (r : Except String ProtocolStats) : ProtocolStats :=
  match r with
  | .ok s => s
  | .error e => emptyProtocolStats e

/-- `_analyze_flows` viewed from `analyze_pcap`: the whole body runs inside
`try/except`, so a raising run degrades to the empty flow list (lines
208-272). -/
def analyze_flows_run (r : Except String (List Flow)) : List Flow :=
  match r with
  | .ok f => f
  | .error _ => []

/-- `PcapAnalyzer.analyze_pcap` (lines 21-53) as a function of the outcome
of each sub-extractor run (a run either returns its value or raises, which
the oracle arguments model as `Except`).  Only `_analyze_protocols` and
`_analyze_flows` contain a `try/except`; `_get_basic_stats`,
`_analyze_conversations` and `_detect_anomalies` are called bare, so an
exception in them propagates out of `analyze_pcap`.  The anomaly oracle
receives the protocol stats, as `_detect_anomalies(packets,
protocol_stats)` does. -/
def analyze_pcap (basic : Except String BasicStats)
    (protocols : Except String ProtocolStats)
    (convs : Except String (List ConvOut))
    (flows : Except String (List Flow))
    (anomalies : ProtocolStats → Except String (List Anomaly)) :
    Except String PcapReport := do
  let b ← basic
  let p := analyze_protocols_run protocols
  let c ← convs
  let f := analyze_flows_run flows
  let a ← anomalies p
  pure ⟨b, p, c, f, a⟩

end PcapAnalyzer

namespace AppPipeline

/-!
Embedding of the background pipeline `process_log_file` of `app.py` (lines
430-504) over the storage of `services/storage.py` (in-memory dicts whose
operations never raise).  The two external calls the body makes —
`llm_service.analyze_log` (may raise on connection failure or a non-200
response) and `llm_service.generate_embeddings` (raises on the first chunk
whose embedding call fails) — are oracle parameters.
-/

/-- The dict returned by `llm_service.analyze_log` (issue and
recommendation payloads are opaque here). -/
structure LlmAnalysis where
  issues : List String
  recommendations : List String
  summary : String
  severity : String
deriving DecidableEq, Repr

/-- A stored analysis result (`storage.create_analysis_result`). -/
structure AnalysisResult where
  logId : Nat
  issues : List String
  recommendations : List String
  summary : String
  severity : String
  resolutionStatus : String
deriving DecidableEq, Repr

/-- A stored activity record (`storage.create_activity`). -/
structure Activity where
  logId : Option Nat
  activityType : String
  description : String
  status : String
deriving DecidableEq, Repr

/-- The slice of the storage state `process_log_file` touches for one log:
its processing status, the analysis results and the activity log. -/
structure PipelineState where
  status : String
  analysisResults : List AnalysisResult
  activities : List Activity
deriving DecidableEq, Repr

/-- Storage state for a freshly uploaded log (status `pending`, nothing
recorded yet). -/
def initState : PipelineState := ⟨"pending", [], []⟩

/-- `MilvusService.insert_embeddings` (`milvus_service.py` lines 109-137):
it requires THREE data arguments — `log_id`, `text_segments` and
`vectors` — and in mock mode (and in its own failure handler) returns the
placeholder ids `[1, ..., n]`. -/
def insert_embeddings (log_id : Nat) (text_segments : List String)
    (vectors : List (List Rat)) : List Nat :=
  (List.range text_segments.length).map (· + 1)

/-- The call site `app.py` line 474 invokes
`milvus_service.insert_embeddings(log_id, embedding_data)` with TWO data
arguments, while the method (`insert_embeddings` above, `milvus_service.py`
line 109) requires three; Python raises `TypeError` at call time, before
the method body runs, so the call always lands in the surrounding `except`
branch. -/
def insert_embeddings_call (log_id : Nat)
    (embedding_data : List (String × List Rat)) : Except String (List Nat) :=
  .error "TypeError: insert_embeddings() missing 1 required positional argument: vectors"

/-- `process_log_file(log_id, content)` (`app.py` lines 430-504) as a state
transformer, parametrised by the outcomes of the two external calls.
Storage operations (`update_log_status`, `create_activity`,
`create_analysis_result`) are in-memory dict updates that never raise, and
segmentation is pure, so the outer `except` is reachable only from the
`analyze_log` call, and the inner `except` from `generate_embeddings` and
the mis-invoked `insert_embeddings` call.  The inner `except` only prints
and downgrades the status; it records no activity. -/
def process_log_file (analyzeOutcome : Except String LlmAnalysis)
    (embedOutcome : Except String (List (List Rat)))
    (logId : Nat) (content : String) (init : PipelineState) : PipelineState :=
  let s1 : PipelineState :=
    { init with
      status := "processing"
      activities := init.activities ++
        [⟨some logId, "processing", "Log processing started", "in_progress"⟩] }
  match analyzeOutcome with
  | .error e =>
    { s1 with
      status := "error"
      activities := s1.activities ++
        [(⟨some logId, "error", "Error processing log: " ++ e, "error"⟩ : Activity)] }
  | .ok analysis =>
    let s2 : PipelineState := { s1 with
      analysisResults := s1.analysisResults ++
        [(⟨logId, analysis.issues, analysis.recommendations, analysis.summary,
          analysis.severity, "pending"⟩ : AnalysisResult)] }
    let segments := LogParser.segment_log_for_embedding content 512
    let s3 : PipelineState :=
      match embedOutcome with
      | .error _ => { s2 with status := "completed_without_vectors" }
      | .ok embeddings =>
        let embedding_data := segments.zip embeddings
        match insert_embeddings_call logId embedding_data with
        | .ok _ => { s2 with status := "completed" }
        | .error _ => { s2 with status := "completed_without_vectors" }
    { s3 with
      activities := s3.activities ++
        [(⟨some logId, "analysis", "Log analysis completed", "completed"⟩ : Activity)] }

end AppPipeline

namespace AppPipeline

/-- A deterministic reasoning-service result used for concrete runs. -/
def mockAnalysis : LlmAnalysis :=
  ⟨["Network Error issue"], ["Check connectivity"], "One issue found", "medium"⟩

end AppPipeline

namespace PcapAnalyzer

/-- Plain basic stats for concrete `analyze_pcap` runs. -/
def sampleBasicStats : BasicStats := ⟨2, 1, 60, 2, 120⟩

/-- Non-degraded protocol stats for concrete `analyze_pcap` runs. -/
def sampleProtocolStats : ProtocolStats :=
  ⟨[("TCP", 2)], [("TCP", 100)], [("IP", 2), ("TCP", 2)], [("IP", 100), ("TCP", 100)], 2, none⟩

end PcapAnalyzer

namespace PcapAnalyzer

/-- A packet carrying only the TCP SYN flag (`flags = 0x02`). -/
def synPkt : Packet := ⟨0, 60, some ⟨"10.0.0.2", "10.0.0.1", 0, 0⟩, some 0x02, none⟩

/-- A packet carrying the TCP SYN and ACK flags (`flags = 0x12`). -/
def synAckPkt : Packet := ⟨0, 60, some ⟨"10.0.0.1", "10.0.0.2", 0, 0⟩, some 0x12, none⟩

/-- Scenario D of the specification: 150 SYN packets and 10 SYN-ACK
packets. -/
def scenarioD : List Packet := List.replicate 150 synPkt ++ List.replicate 10 synAckPkt

/-- Protocol stats matching scenario D (160 analyzed TCP packets, no
ICMP). -/
def scenarioD_stats : ProtocolStats :=
  ⟨[("TCP", 160)], [("TCP", 100)], [("IP", 160), ("TCP", 160)],
    [("IP", 100), ("TCP", 100)], 160, none⟩

end PcapAnalyzer

namespace LogParser

/-- The specification's fixed telecom keyword vocabulary (§4.3), written
out for comparison with the code: the claim asserts validity requires one
of these to occur, and the code imposes no such requirement. -/
def specTelecomKeywords : List String :=
  ["network", "signal", "protocol", "node", "gateway", "BTS", "RNC", "MSC", "HLR"]

/-- Helper for Python `needle in hay`: some suffix of `hay` starts with
`needle`. -/
def containsSubstrAux (needle : List Char) : List Char → Bool
  | [] => needle.isEmpty
  | c :: rest => needle.isPrefixOf (c :: rest) || containsSubstrAux needle rest

/-- Python substring containment `needle in hay`. -/
def containsSubstr (hay needle : String) : Bool :=
  containsSubstrAux needle.data hay.data

/-- The validator's sample: the first 20 non-blank lines
(`log_parser.py` line 134). -/
def sampleLines (content : String) : List String :=
  ((splitlines content).filter fun l => !isBlank l).take 20

/-- Sampled lines containing a `telecom_log_pattern` hit
(`log_parser.py` lines 137-140). -/
def timestampLineCount (content : String) : Nat :=
  (sampleLines content).countP fun l => telecomSearch l.data

end LogParser

namespace PcapAnalyzer

/-- The loop invariant of `_analyze_conversations`: every stored
conversation balances its per-direction byte and packet counters against
the totals, keeps its endpoints canonically ordered, and is stored under
the key derived from the ordered pair; keys are unique. -/
def ConvInvariant (convs : List (String × ConvAcc)) : Prop :=
  (∀ kc ∈ convs,
    kc.2.a_to_b_bytes + kc.2.b_to_a_bytes = kc.2.bytes ∧
    kc.2.a_to_b_packets + kc.2.b_to_a_packets = kc.2.packets ∧
    kc.2.ip_a ≤ kc.2.ip_b ∧
    kc.1 = kc.2.ip_a ++ "_" ++ kc.2.ip_b) ∧
  (convs.map Prod.fst).Nodup

end PcapAnalyzer

namespace PcapAnalyzer

/-- A packet whose source and destination coincide (loopback-style). -/
def selfPkt : Packet := ⟨0, 100, some ⟨"10.0.0.1", "10.0.0.1", 0, 0⟩, none, none⟩

/-- Scenario E, first packet: `10.0.0.2 → 10.0.0.1`. -/
def pktAB : Packet := ⟨0, 60, some ⟨"10.0.0.2", "10.0.0.1", 0, 0⟩, none, none⟩

/-- Scenario E, second packet: `10.0.0.1 → 10.0.0.2`. -/
def pktBA : Packet := ⟨1, 40, some ⟨"10.0.0.1", "10.0.0.2", 0, 0⟩, none, none⟩

/-- Scenario E of the specification: one packet in each direction between
the two addresses. -/
def scenarioE : List Packet := [pktAB, pktBA]

end PcapAnalyzer

section SegmentationLemmas

open LogParser

/-- The groups produced by the segmentation loop partition the line list. -/
theorem segmentGroups_flatten (maxB : Nat) :
    ∀ (lines cur : List String) (curLen : Nat),
      (segmentGroups maxB lines cur curLen).flatten = cur ++ lines := by
  intro lines
  induction lines with
  | nil =>
    intro cur curLen
    by_cases h : cur = []
    · simp [segmentGroups, h]
    · simp [segmentGroups, h]
  | cons line rest ih =>
    intro cur curLen
    by_cases h : maxB < curLen + line.length ∧ ¬cur = []
    · simp [segmentGroups, h, ih]
    · simp [segmentGroups, h, ih]

/-- Every group produced by the segmentation loop is non-empty. -/
theorem segmentGroups_ne_nil (maxB : Nat) :
    ∀ (lines cur : List String) (curLen : Nat),
      ∀ g ∈ segmentGroups maxB lines cur curLen, g ≠ [] := by
  intro lines
  induction lines with
  | nil =>
    intro cur curLen g hg
    by_cases h : cur = []
    · simp [segmentGroups, h] at hg
    · simp [segmentGroups, h] at hg
      subst hg
      exact h
  | cons line rest ih =>
    intro cur curLen g hg
    by_cases h : maxB < curLen + line.length ∧ ¬cur = []
    · simp [segmentGroups, h] at hg
      rcases hg with hg | hg
      · subst hg
        exact h.2
      · exact ih _ _ _ hg
    · simp [segmentGroups, h] at hg
      exact ih _ _ _ hg

/-- Size invariant of the segmentation loop: provided `curLen` is the sum of
the line lengths of `cur` and `cur` is a singleton or within the bound, every
emitted group is a singleton or has line-length sum within the bound.
(The bound counts line characters only: the `"\n"` separators inserted by
the join are *not* counted by the source's `current_length`.) -/
theorem segmentGroups_size (maxB : Nat) :
    ∀ (lines cur : List String) (curLen : Nat),
      curLen = (cur.map String.length).sum →
      (cur.length ≤ 1 ∨ curLen ≤ maxB) →
      ∀ g ∈ segmentGroups maxB lines cur curLen,
        g.length = 1 ∨ (g.map String.length).sum ≤ maxB := by
  intro lines
  induction lines with
  | nil =>
    intro cur curLen hsum hinv g hg
    by_cases h : cur = []
    · simp [segmentGroups, h] at hg
    · simp [segmentGroups, h] at hg
      subst hg
      rcases hinv with hlen | hle
      · left
        have hpos : 1 ≤ g.length := List.length_pos.mpr h
        omega
      · right
        omega
  | cons line rest ih =>
    intro cur curLen hsum hinv g hg
    by_cases h : maxB < curLen + line.length ∧ ¬cur = []
    · simp [segmentGroups, h] at hg
      rcases hg with hg | hg
      · subst hg
        rcases hinv with hlen | hle
        · left
          have hpos : 1 ≤ g.length := List.length_pos.mpr h.2
          omega
        · right
          omega
      · exact ih [line] line.length (by simp) (Or.inl (by simp)) g hg
    · simp [segmentGroups, h] at hg
      refine ih (cur ++ [line]) (curLen + line.length) (by simp [hsum]) ?_ g hg
      by_cases hcur : cur = []
      · left
        simp [hcur]
      · right
        have hle : ¬maxB < curLen + line.length := fun hgt => h ⟨hgt, hcur⟩
        omega

/-- Joining an append of two non-empty chunk lists inserts one separator. -/
theorem joinNl_append (a b : List String) (ha : a ≠ []) (hb : b ≠ []) :
    joinNl (a ++ b) = joinNl a ++ "\n" ++ joinNl b := by
  induction a with
  | nil => exact absurd rfl ha
  | cons x xs ih =>
    cases xs with
    | nil =>
      cases b with
      | nil => exact absurd rfl hb
      | cons y ys => simp [joinNl]
    | cons x' xs' =>
      have step : joinNl ((x :: x' :: xs') ++ b) = x ++ "\n" ++ joinNl ((x' :: xs') ++ b) := by
        simp [joinNl]
      rw [step, ih (by simp), joinNl]
      simp [String.append_assoc]

/-- A list of non-empty groups with at least one group flattens to a
non-empty list. -/
theorem flatten_ne_nil (gs : List (List String)) (hne : gs ≠ [])
    (hkept : ∀ g ∈ gs, g ≠ []) : gs.flatten ≠ [] := by
  cases gs with
  | nil => exact absurd rfl hne
  | cons g t =>
    have hg : g ≠ [] := hkept g (by simp)
    cases g with
    | nil => exact absurd rfl hg
    | cons l ls => simp

/-- Joining the per-group joins equals joining the flattened line list, for
non-empty groups: rejoining chunks with `"\n"` restores the original
`"\n"`-joined lines. -/
theorem joinNl_map_flatten (gs : List (List String)) (h : ∀ g ∈ gs, g ≠ []) :
    joinNl (gs.map joinNl) = joinNl gs.flatten := by
  induction gs with
  | nil => simp
  | cons g t ih =>
    cases t with
    | nil => simp [joinNl]
    | cons g' t' =>
      have hg : g ≠ [] := h g (by simp)
      have ht : ∀ x ∈ g' :: t', x ≠ [] := fun x hx => h x (by simp [hx])
      have htne : (g' :: t').flatten ≠ [] := flatten_ne_nil _ (by simp) ht
      have hmap : joinNl (joinNl g :: joinNl g' :: t'.map joinNl)
          = joinNl g ++ "\n" ++ joinNl (joinNl g' :: t'.map joinNl) := by
        simp [joinNl]
      calc joinNl ((g :: g' :: t').map joinNl)
          = joinNl g ++ "\n" ++ joinNl ((g' :: t').map joinNl) := by
            simpa using hmap
        _ = joinNl g ++ "\n" ++ joinNl (g' :: t').flatten := by rw [ih ht]
        _ = joinNl (g ++ (g' :: t').flatten) := (joinNl_append _ _ hg htne).symm
        _ = joinNl (g :: g' :: t').flatten := by simp

/-- Character count of a joined chunk: line characters plus one separator
between consecutive lines. -/
theorem joinNl_length (g : List String) (h : g ≠ []) :
    (joinNl g).length + 1 = (g.map String.length).sum + g.length := by
  induction g with
  | nil => exact absurd rfl h
  | cons x xs ih =>
    cases xs with
    | nil => simp [joinNl]
    | cons y ys =>
      have : joinNl (x :: y :: ys) = x ++ "\n" ++ joinNl (y :: ys) := by simp [joinNl]
      rw [this]
      have hlen := ih (by simp)
      have hnl : ("\n" : String).length = 1 := rfl
      simp only [String.length_append, hnl]
      simp only [List.map_cons, List.sum_cons, List.length_cons] at hlen ⊢
      omega

/-- `splitLinesCore` (outside a `"\r\n"` boundary) returns a non-empty list
whenever the input or the accumulator is non-empty. -/
theorem splitLinesCore_ne_nil :
    ∀ (cs acc : List Char), cs ≠ [] ∨ acc ≠ [] → splitLinesCore cs acc false ≠ [] := by
  intro cs
  induction cs with
  | nil =>
    intro acc h
    rcases h with h | h
    · exact absurd rfl h
    · cases acc with
      | nil => exact absurd rfl h
      | cons a t => simp [splitLinesCore]
  | cons c rest ih =>
    intro acc _
    by_cases hn : c = '\n'
    · simp [splitLinesCore, hn]
    · by_cases hr : c = '\r'
      · simp [splitLinesCore, hn, hr]
      · by_cases hob : isOtherBreakC c
        · simp [splitLinesCore, hn, hr, hob]
        · simp only [splitLinesCore, hn, hr, hob, false_and, if_false]
          simpa [hn, hr, hob] using ih (c :: acc) (Or.inr (by simp))

/-- Structure eta for strings. -/
theorem string_mk_data (s : String) : String.mk s.data = s := rfl

/-- Appending strings appends their character lists. -/
theorem string_mk_append (a b : List Char) :
    String.mk a ++ String.mk b = String.mk (a ++ b) := rfl

/-- Unfolding `joinNl` over a cons with a non-empty tail. -/
theorem joinNl_cons (x : String) (ys : List String) (h : ys ≠ []) :
    joinNl (x :: ys) = x ++ "\n" ++ joinNl ys := by
  cases ys with
  | nil => exact absurd rfl h
  | cons y t => simp [joinNl]

/-- If the character stream contains no carriage return and no further
break character and does not end in a newline, re-joining the split lines
with `"\n"` restores the stream (prefixed by the reversed accumulator). -/
theorem joinNl_splitLinesCore :
    ∀ (cs acc : List Char), '\r' ∉ cs → (∀ c ∈ cs, isOtherBreakC c = false) →
      cs.getLast? ≠ some '\n' →
      joinNl (splitLinesCore cs acc false) = String.mk (acc.reverse ++ cs) := by
  intro cs
  induction cs with
  | nil =>
    intro acc _ _ _
    by_cases h : acc = []
    · simp [splitLinesCore, h]
      rfl
    · cases acc with
      | nil => exact absurd rfl h
      | cons a t => simp [splitLinesCore, joinNl]
  | cons c rest ih =>
    intro acc hcr hob hlast
    by_cases hn : c = '\n'
    · subst hn
      cases rest with
      | nil => simp at hlast
      | cons c' rest' =>
        have hne : splitLinesCore (c' :: rest') [] false ≠ [] :=
          splitLinesCore_ne_nil _ _ (Or.inl (by simp))
        have hcr' : '\r' ∉ c' :: rest' := fun hx => hcr (by simp [hx])
        have hob' : ∀ x ∈ c' :: rest', isOtherBreakC x = false :=
          fun x hx => hob x (by simp [hx])
        have hlast' : (c' :: rest').getLast? ≠ some '\n' := by
          rwa [List.getLast?_cons_cons] at hlast
        have hunfold : splitLinesCore ('\n' :: c' :: rest') acc false
            = String.mk acc.reverse :: splitLinesCore (c' :: rest') [] false := by
          simp [splitLinesCore]
        rw [hunfold, joinNl_cons _ _ hne, ih [] hcr' hob' hlast']
        show String.mk acc.reverse ++ String.mk ['\n'] ++ String.mk ([].reverse ++ c' :: rest')
            = String.mk (acc.reverse ++ '\n' :: c' :: rest')
        rw [string_mk_append, string_mk_append]
        simp
    · have hr : c ≠ '\r' := fun hx => hcr (by simp [hx])
      have hobc : isOtherBreakC c = false := hob c (by simp)
      have hcr' : '\r' ∉ rest := fun hx => hcr (by simp [hx])
      have hob' : ∀ x ∈ rest, isOtherBreakC x = false :=
        fun x hx => hob x (by simp [hx])
      have hlast' : rest.getLast? ≠ some '\n' := by
        cases rest with
        | nil => simp
        | cons c' rest' => rwa [List.getLast?_cons_cons] at hlast
      have hunfold : splitLinesCore (c :: rest) acc false = splitLinesCore rest (c :: acc) false := by
        simp [splitLinesCore, hn, hr, hobc]
      rw [hunfold, ih (c :: acc) hcr' hob' hlast']
      simp

/-- `"\n".join(splitlines(s)) = s` for `s` whose only line-boundary
characters are `'\n'` and that does not end in a newline. -/
theorem joinNl_splitlines (s : String) (hcr : '\r' ∉ s.data)
    (hob : ∀ c ∈ s.data, isOtherBreakC c = false)
    (hlast : s.data.getLast? ≠ some '\n') : joinNl (splitlines s) = s := by
  have h := joinNl_splitLinesCore s.data [] hcr hob hlast
  simpa [splitlines, string_mk_data] using h

/-- Rejoining all chunks of `segment_log_for_embedding` with `"\n"` yields
the `"\n"`-join of the original line list. -/
theorem segment_join (content : String) (maxB : Nat) :
    joinNl (segment_log_for_embedding content maxB) = joinNl (splitlines content) := by
  unfold segment_log_for_embedding
  rw [joinNl_map_flatten _ (segmentGroups_ne_nil maxB _ [] 0), segmentGroups_flatten]
  simp

end SegmentationLemmas

section LogParserChecks

open LogParser

example : parse_line "2024-01-01 12:00:00 INFO [BTS01] link up" =
    some ⟨"2024-01-01 12:00:00 INFO [BTS01] link up",
      some "2024-01-01 12:00:00", some "INFO", some "BTS01", some "link up"⟩ := by
  decide

example : parse_line "no timestamp here" = none := by decide

example : is_valid_telecom_log "" = false := by decide

example : is_valid_telecom_log "2024-01-01 12:00:00 alarm raised" = true := by decide

end LogParserChecks

section PipelineTheorems

open AppPipeline

/-- C4: when the reasoning-service call fails, the artifact status becomes
`error`, no AnalysisResult is created (the stored results are exactly those
present before), and an Activity of type `"error"` carrying the failure
reason is recorded. -/
theorem C4_reasoning_failure_is_fatal (e : String)
    (embedOutcome : Except String (List (List Rat)))
    (logId : Nat) (content : String) (init : PipelineState) :
    (process_log_file (.error e) embedOutcome logId content init).status = "error" ∧
    (process_log_file (.error e) embedOutcome logId content init).analysisResults
      = init.analysisResults ∧
    ∃ act ∈ (process_log_file (.error e) embedOutcome logId content init).activities,
      act.activityType = "error" ∧
      act.description = "Error processing log: " ++ e ∧ act.logId = some logId := by
  refine ⟨rfl, rfl,
    ⟨⟨some logId, "error", "Error processing log: " ++ e, "error"⟩, ?_, rfl, rfl, rfl⟩⟩
  simp [process_log_file]

/-- C10: whenever the reasoning analysis succeeds, the run terminates in
`completed_without_vectors` — never `completed` — for every embedding
outcome, because the vector-store insert is invoked with two arguments
against a three-argument signature and always raises `TypeError`, sending
the flow into the embedding-failure `except` branch. -/
theorem C10_completed_unreachable (a : LlmAnalysis)
    (embedOutcome : Except String (List (List Rat)))
    (logId : Nat) (content : String) (init : PipelineState) :
    (process_log_file (.ok a) embedOutcome logId content init).status
      = "completed_without_vectors" := by
  cases embedOutcome with
  | error e => rfl
  | ok embeddings => rfl

/-- C3 (counterexample): with a successful analysis and failing embedding
service, the final state contains NO Activity of type `"error"` — the
failure is only printed, contradicting the claimed error Activity
mentioning embedding. -/
theorem C3_counterexample :
    ¬ ∃ act ∈ (process_log_file (.ok mockAnalysis)
        (.error "Failed to generate embedding: service unavailable") 1
        "2024-01-01 12:00:00 INFO network up" initState).activities,
      act.activityType = "error" := by
  decide

/-- C3 (amended): when the reasoning analysis succeeds and the embedding
call fails, the pipeline ends in `completed_without_vectors` and an
AnalysisResult is still produced, but no Activity of type `"error"` is
written (the error-activity set is unchanged); the closing Activity has
type `"analysis"`. -/
theorem C3_embedding_failure_degrades (a : LlmAnalysis) (e : String)
    (logId : Nat) (content : String) (init : PipelineState) :
    (process_log_file (.ok a) (.error e) logId content init).status
      = "completed_without_vectors" ∧
    (process_log_file (.ok a) (.error e) logId content init).analysisResults
      = init.analysisResults ++
        [⟨logId, a.issues, a.recommendations, a.summary, a.severity, "pending"⟩] ∧
    (process_log_file (.ok a) (.error e) logId content init).activities.filter
        (fun act => act.activityType == "error")
      = init.activities.filter (fun act => act.activityType == "error") := by
  refine ⟨rfl, rfl, ?_⟩
  simp [process_log_file]

end PipelineTheorems

section PcapOrchestrationTheorems

open PcapAnalyzer

/-- C9 (counterexample): a raising conversation sub-extractor aborts
`analyze_pcap` entirely — no report is returned — because only
`_analyze_protocols` and `_analyze_flows` run inside `try/except`. -/
theorem C9_counterexample :
    analyze_pcap (.ok sampleBasicStats) (.ok sampleProtocolStats)
      (.error "conversation extractor raised") (.ok []) (fun _ => .ok [])
      = .error "conversation extractor raised" := rfl

/-- C9 (amended): failures of the protocol-statistics and flow
sub-extractors are recovered — the report still comes back with the empty
stats (carrying the error string) and an empty flow list while every other
section is intact — whereas a failure of the conversation sub-extractor,
of basic statistics, or of anomaly detection propagates and no report is
produced. -/
theorem C9_guarded_sub_extractors :
    (∀ (b : BasicStats) (cs : List ConvOut) (pe fe : String)
      (an : ProtocolStats → List Anomaly),
      analyze_pcap (.ok b) (.error pe) (.ok cs) (.error fe) (fun ps => .ok (an ps))
        = .ok ⟨b, emptyProtocolStats pe, cs, [], an (emptyProtocolStats pe)⟩) ∧
    (∀ (b : BasicStats) (protocols : Except String ProtocolStats) (ce : String)
      (flows : Except String (List Flow))
      (anomalies : ProtocolStats → Except String (List Anomaly)),
      analyze_pcap (.ok b) protocols (.error ce) flows anomalies = .error ce) ∧
    (∀ (be : String) (protocols : Except String ProtocolStats)
      (convs : Except String (List ConvOut)) (flows : Except String (List Flow))
      (anomalies : ProtocolStats → Except String (List Anomaly)),
      analyze_pcap (.error be) protocols convs flows anomalies = .error be) ∧
    (∀ (b : BasicStats) (protocols : Except String ProtocolStats)
      (cs : List ConvOut) (flows : Except String (List Flow)) (ae : String),
      analyze_pcap (.ok b) protocols (.ok cs) flows (fun _ => .error ae) = .error ae) := by
  exact ⟨fun b cs pe fe an => rfl, fun b protocols ce flows anomalies => rfl,
    fun be protocols convs flows anomalies => rfl,
    fun b protocols cs flows ae => rfl⟩

end PcapOrchestrationTheorems

section AnomalyTheorems

open PcapAnalyzer

/-- A word whose SYN bit (`0x02`) is set also passes the mask `0x12`. -/
theorem land_mask_mono {f : Nat} (h2 : f &&& 2 ≠ 0) : f &&& 18 ≠ 0 := by
  intro h18
  apply h2
  apply Nat.eq_of_testBit_eq
  intro i
  rw [Nat.testBit_land]
  by_cases hi : i = 1
  · subst hi
    have h1 : (f &&& 18).testBit 1 = false := by rw [h18]; exact Nat.zero_testBit 1
    rw [Nat.testBit_land] at h1
    have h18b : (18 : Nat).testBit 1 = true := by decide
    rw [h18b, Bool.and_true] at h1
    simp [h1, Nat.zero_testBit]
  · have h2b : (2 : Nat).testBit i = false := by
      have he : (2 : Nat) = 2 ^ 1 := rfl
      rw [he, Nat.testBit_two_pow]
      simpa using fun hx => hi hx.symm
    simp [h2b, Nat.zero_testBit]

/-- Every packet counted by the SYN test is also counted by the
`flags & 0x12` test, so the code's "SYN-ACK" counter dominates the SYN
counter. -/
theorem syn_count_le_syn_ack_count (packets : List Packet) :
    syn_count packets ≤ syn_ack_count packets := by
  apply List.countP_mono_left
  intro p _ hp
  cases htcp : p.tcpFlags with
  | none => rw [htcp] at hp; simp at hp
  | some f =>
    rw [htcp] at hp
    show (f &&& 18 != 0) = true
    simp only [bne_iff_ne, ne_eq] at hp ⊢
    exact land_mask_mono hp

/-- The SYN-flood rule never fires: its ratio is at most 1, below the
threshold of 3. -/
theorem synFloodAnoms_eq_nil (packets : List Packet) : synFloodAnoms packets = [] := by
  unfold synFloodAnoms
  by_cases h : syn_count packets > 0 ∧ syn_ack_count packets > 0
  · have hle : syn_count packets ≤ syn_ack_count packets :=
      syn_count_le_syn_ack_count packets
    have hpos : (0 : Rat) < (syn_ack_count packets : Rat) := by
      exact_mod_cast h.2
    have hratio : ((syn_count packets : Rat) / (syn_ack_count packets : Rat)) ≤ 1 :=
      (div_le_one hpos).mpr (by exact_mod_cast hle)
    have hcond : ¬(((syn_count packets : Rat) / (syn_ack_count packets : Rat)) > 3 ∧
        syn_count packets > 100) := by
      rintro ⟨hr, _⟩
      linarith
    simp [h, hcond]
  · simp [h]

/-- Every ICMP-flood anomaly has type `"ICMP Flood"`. -/
theorem mem_icmpFloodAnoms (stats : ProtocolStats) :
    ∀ a ∈ icmpFloodAnoms stats, a.type = "ICMP Flood" := by
  intro a ha
  simp only [icmpFloodAnoms] at ha
  split at ha
  · split_ifs at ha <;> simp_all
  · simp at ha

/-- Every DNS-amplification anomaly has type `"DNS Amplification"`. -/
theorem mem_dnsAmpAnoms (packets : List Packet) :
    ∀ a ∈ dnsAmpAnoms packets, a.type = "DNS Amplification" := by
  intro a ha
  simp only [dnsAmpAnoms] at ha
  split_ifs at ha <;> simp_all

/-- Every fragmentation anomaly has type `"IP Fragmentation"`. -/
theorem mem_fragAnoms (packets : List Packet) :
    ∀ a ∈ fragAnoms packets, a.type = "IP Fragmentation" := by
  intro a ha
  simp only [fragAnoms] at ha
  split_ifs at ha <;> simp_all

/-- C1: on scenario D's capture (150 SYN packets, 10 SYN-ACK packets) the
anomaly detector reports NOTHING, and in general no capture can ever
produce a SYN-flood anomaly: the `flags & 0x12` truthiness test also counts
every SYN-only packet, so the "SYN-ACK" counter always dominates the SYN
counter and the ratio never exceeds 1, let alone 3. -/
theorem C1_syn_flood_rule_dead :
    detect_anomalies scenarioD scenarioD_stats = [] ∧
    ∀ (packets : List Packet) (stats : ProtocolStats),
      "SYN Flood" ∉ (detect_anomalies packets stats).map Anomaly.type := by
  constructor
  · unfold detect_anomalies
    rw [synFloodAnoms_eq_nil]
    decide
  · intro packets stats hmem
    rw [List.mem_map] at hmem
    obtain ⟨a, ha, hty⟩ := hmem
    unfold detect_anomalies at ha
    rw [synFloodAnoms_eq_nil] at ha
    simp only [List.nil_append, List.mem_append] at ha
    rcases ha with (ha | ha) | ha
    · have := mem_icmpFloodAnoms stats a ha
      rw [this] at hty
      exact absurd hty (by decide)
    · have := mem_dnsAmpAnoms packets a ha
      rw [this] at hty
      exact absurd hty (by decide)
    · have := mem_fragAnoms packets a ha
      rw [this] at hty
      exact absurd hty (by decide)

end AnomalyTheorems

section ValidatorTheorems

open LogParser

/-- C2 (counterexample): a text whose only line is a timestamp followed by
`"hello"` is accepted by `is_valid_telecom_log` although it contains none
of the telecom keywords of the specification's vocabulary — the code never
checks for keywords. -/
theorem C2_counterexample :
    is_valid_telecom_log "2024-01-01 12:00:00 hello" = true ∧
    (specTelecomKeywords.all fun k =>
      !containsSubstr "2024-01-01 12:00:00 hello" k) = true := by
  exact ⟨by decide, by decide⟩

/-- C2 (amended): `is_valid_telecom_log` returns true exactly when the
sample of the first 20 non-blank lines is non-empty and at least 50% of
them contain a recognizable timestamp token; there is no telecom-keyword
condition, and empty input is invalid. -/
theorem C2_validator_characterisation :
    (∀ content : String,
      is_valid_telecom_log content = true ↔
        (sampleLines content ≠ [] ∧
          (1 : Rat) / 2 ≤
            (timestampLineCount content : Rat) / ((sampleLines content).length : Rat))) ∧
    is_valid_telecom_log "" = false := by
  constructor
  · intro content
    unfold is_valid_telecom_log
    simp only [decide_eq_true_eq]
    unfold timestampLineCount
    unfold sampleLines
    constructor
    · rintro ⟨hne, hcnt⟩
      refine ⟨hne, ?_⟩
      have hlen : 0 < (((splitlines content).filter fun l => !isBlank l).take 20).length :=
        List.length_pos.mpr hne
      have hlenq : (0 : Rat) < ((((splitlines content).filter fun l => !isBlank l).take 20).length : Rat) := by
        exact_mod_cast hlen
      rw [le_div_iff₀ hlenq]
      have hc : ((((splitlines content).filter fun l => !isBlank l).take 20).length : Rat)
          ≤ 2 * ((((splitlines content).filter fun l => !isBlank l).take 20).countP
            fun l => telecomSearch l.data : Rat) := by
        exact_mod_cast hcnt
      linarith
    · rintro ⟨hne, hr⟩
      refine ⟨hne, ?_⟩
      have hlen : 0 < (((splitlines content).filter fun l => !isBlank l).take 20).length :=
        List.length_pos.mpr hne
      have hlenq : (0 : Rat) < ((((splitlines content).filter fun l => !isBlank l).take 20).length : Rat) := by
        exact_mod_cast hlen
      rw [le_div_iff₀ hlenq] at hr
      have : ((((splitlines content).filter fun l => !isBlank l).take 20).length : Rat)
          ≤ 2 * ((((splitlines content).filter fun l => !isBlank l).take 20).countP
            fun l => telecomSearch l.data : Rat) := by
        linarith
      exact_mod_cast this
  · decide

end ValidatorTheorems

section SegmenterTheorems

open LogParser

/-- C6 (counterexample): the round trip is not exact for every text — a
trailing newline is dropped by `splitlines` and never restored by the
join. -/
theorem C6_counterexample :
    joinNl (segment_log_for_embedding "a\n" 512) ≠ "a\n" := by decide

/-- C6 (amended): for every text and bound, rejoining the chunks with
`"\n"` restores the `"\n"`-join of the text's lines; this equals the text
itself whenever the text's only line-boundary character is `'\n'` (no
carriage return and none of the other `splitlines` boundaries) and the
text does not end in a newline.  No content is lost, reordered or
altered — only line terminators other than an interior `'\n'` are not
restored. -/
theorem C6_segmentation_round_trip (content : String) (maxB : Nat) :
    joinNl (segment_log_for_embedding content maxB) = joinNl (splitlines content) ∧
    ('\r' ∉ content.data → (∀ c ∈ content.data, isOtherBreakC c = false) →
      content.data.getLast? ≠ some '\n' →
      joinNl (segment_log_for_embedding content maxB) = content) := by
  refine ⟨segment_join content maxB, fun hcr hob hlast => ?_⟩
  rw [segment_join content maxB]
  exact joinNl_splitlines content hcr hob hlast

/-- C6 (witness): a concrete newline-only text round-trips exactly. -/
theorem C6_round_trip_witness :
    joinNl (segment_log_for_embedding "line one\nline two" 512) = "line one\nline two" :=
  (C6_segmentation_round_trip "line one\nline two" 512).2 (by decide) (by decide) (by decide)

/-- C7 (counterexample): with `maxB = 2`, the text `"a\nb\nc"` produces the
chunk `"a\nb"` of length 3 — it exceeds the bound although it is not a
single oversized line (it has two lines): the source's `current_length`
does not count the `"\n"` separators the join inserts. -/
theorem C7_counterexample :
    ∃ c ∈ segment_log_for_embedding "a\nb\nc" 2,
      2 < c.length ∧ 1 < (splitlines c).length := by decide

/-- C7 (amended): every chunk is the `"\n"`-join of a group of lines that
is either a single (possibly oversized, never split) line, or a group whose
total line characters stay within the bound — so the chunk's length can
exceed `maxB` only by the number of inserted separators, i.e.
`c.length + 1 ≤ maxB + (number of lines)`. -/
theorem C7_chunk_size_bound (content : String) (maxB : Nat) :
    ∀ c ∈ segment_log_for_embedding content maxB,
      ∃ g ∈ segmentGroups maxB (splitlines content) [] 0,
        c = joinNl g ∧
        (g.length = 1 ∨
          ((g.map String.length).sum ≤ maxB ∧ c.length + 1 ≤ maxB + g.length)) := by
  intro c hc
  unfold segment_log_for_embedding at hc
  rw [List.mem_map] at hc
  obtain ⟨g, hg, hjoin⟩ := hc
  refine ⟨g, hg, hjoin.symm, ?_⟩
  have hne : g ≠ [] := segmentGroups_ne_nil maxB _ [] 0 g hg
  have hsize := segmentGroups_size maxB (splitlines content) [] 0 (by simp) (Or.inl (by simp)) g hg
  rcases hsize with h1 | hle
  · exact Or.inl h1
  · right
    refine ⟨hle, ?_⟩
    have hlen := joinNl_length g hne
    rw [hjoin] at hlen
    omega

/-- C7 (witness): the single chunk of `"x\ny"` at bound 512 satisfies the
size bound. -/
theorem C7_chunk_size_witness :
    ∃ g ∈ segmentGroups 512 (splitlines "x\ny") [] 0,
      "x\ny" = joinNl g ∧
      (g.length = 1 ∨
        ((g.map String.length).sum ≤ 512 ∧ ("x\ny" : String).length + 1 ≤ 512 + g.length)) :=
  C7_chunk_size_bound "x\ny" 512 "x\ny" (by decide)

end SegmenterTheorems

section LineParserTheorems

open LogParser

/-- Any successful `patternShape` match returns the record
`⟨line, some ts, lvl, comp, some msg⟩`: original text preserved, timestamp
bound, message present (possibly empty). -/
theorem patternShape_shape (tsM : Matcher)
    (cap1 cap2 : List Char → Option String × List Char)
    (line : String) (r : ParsedLine)
    (h : patternShape tsM cap1 cap2 line = some r) :
    ∃ ts lvl comp msg, r = ⟨line, some ts, lvl, comp, some msg⟩ := by
  unfold patternShape at h
  split at h
  · exact Option.noConfusion h
  · split at h
    · exact Option.noConfusion h
    · split at h
      · split at h
        · injection h with h
          exact ⟨_, _, _, _, h.symm⟩

/-- `standard_pattern` matches return the preserved-text record. -/
theorem standard_pattern_shape (line : String) (r : ParsedLine)
    (h : standard_pattern line = some r) :
    ∃ ts lvl comp msg, r = ⟨line, some ts, lvl, comp, some msg⟩ :=
  patternShape_shape _ _ _ _ _ h

/-- `cisco_pattern` matches return the preserved-text record. -/
theorem cisco_pattern_shape (line : String) (r : ParsedLine)
    (h : cisco_pattern line = some r) :
    ∃ ts lvl comp msg, r = ⟨line, some ts, lvl, comp, some msg⟩ :=
  patternShape_shape _ _ _ _ _ h

/-- `nokia_pattern` matches return the preserved-text record. -/
theorem nokia_pattern_shape (line : String) (r : ParsedLine)
    (h : nokia_pattern line = some r) :
    ∃ ts lvl comp msg, r = ⟨line, some ts, lvl, comp, some msg⟩ :=
  patternShape_shape _ _ _ _ _ h

/-- `huawei_pattern` matches return the preserved-text record. -/
theorem huawei_pattern_shape (line : String) (r : ParsedLine)
    (h : huawei_pattern line = some r) :
    ∃ ts lvl comp msg, r = ⟨line, some ts, lvl, comp, some msg⟩ :=
  patternShape_shape _ _ _ _ _ h

/-- `ericsson_pattern` matches return the preserved-text record. -/
theorem ericsson_pattern_shape (line : String) (r : ParsedLine)
    (h : ericsson_pattern line = some r) :
    ∃ ts lvl comp msg, r = ⟨line, some ts, lvl, comp, some msg⟩ :=
  patternShape_shape _ _ _ _ _ h

/-- Any successful `parse_line` returns a record with the original text, a
bound timestamp and a present (possibly empty) message. -/
theorem parse_line_shape (line : String) (r : ParsedLine)
    (h : parse_line line = some r) :
    ∃ ts lvl comp msg, r = ⟨line, some ts, lvl, comp, some msg⟩ := by
  unfold parse_line at h
  cases h1 : standard_pattern line with
  | some r1 =>
    rw [h1] at h
    simp only [Option.orElse, Option.some.injEq] at h
    subst h
    exact standard_pattern_shape _ _ h1
  | none =>
    rw [h1] at h
    simp only [Option.orElse] at h
    cases h2 : cisco_pattern line with
    | some r2 =>
      rw [h2] at h
      simp only [Option.orElse, Option.some.injEq] at h
      subst h
      exact cisco_pattern_shape _ _ h2
    | none =>
      rw [h2] at h
      simp only [Option.orElse] at h
      cases h3 : nokia_pattern line with
      | some r3 =>
        rw [h3] at h
        simp only [Option.orElse, Option.some.injEq] at h
        subst h
        exact nokia_pattern_shape _ _ h3
      | none =>
        rw [h3] at h
        simp only [Option.orElse] at h
        cases h4 : huawei_pattern line with
        | some r4 =>
          rw [h4] at h
          simp only [Option.orElse, Option.some.injEq] at h
          subst h
          exact huawei_pattern_shape _ _ h4
        | none =>
          rw [h4] at h
          simp only [Option.orElse] at h
          exact ericsson_pattern_shape _ _ h

/-- Membership in `parse_log_lines`: every record comes from a non-blank
line, matched or falling back to the text-and-message record. -/
theorem mem_parse_log_lines :
    ∀ (lines : List String), ∀ seg ∈ parse_log_lines lines,
      ∃ line ∈ lines, isBlank line = false ∧
        ((∃ r, parse_line line = some r ∧ seg = r) ∨
          (parse_line line = none ∧ seg = ⟨line, none, none, none, some line⟩)) := by
  intro lines
  induction lines with
  | nil => intro seg hseg; simp [parse_log_lines] at hseg
  | cons line rest ih =>
    intro seg hseg
    by_cases hb : isBlank line
    · simp only [parse_log_lines, hb, if_true] at hseg
      obtain ⟨l, hl, hrest⟩ := ih seg hseg
      exact ⟨l, by simp [hl], hrest⟩
    · simp only [parse_log_lines, hb, if_false] at hseg
      cases hseg with
      | head =>
        refine ⟨line, by simp, by simpa using hb, ?_⟩
        cases hp : parse_line line with
        | some r => exact Or.inl ⟨r, rfl, rfl⟩
        | none => exact Or.inr ⟨rfl, rfl⟩
      | tail b hseg =>
        obtain ⟨l, hl, hrest⟩ := ih seg hseg
        exact ⟨l, by simp [hl], hrest⟩

/-- C8 (counterexample): a line consisting of a timestamp and a trailing
space matches `standard_pattern` with an EMPTY message group, so the
parser can return a record whose message is the empty string. -/
theorem C8_counterexample :
    parse_line "2024-01-01 12:00:00 " =
      some ⟨"2024-01-01 12:00:00 ", some "2024-01-01 12:00:00", none, none, some ""⟩ := by
  decide

/-- C8 (amended): the line parser is total — every record returned by
`parse_log` has its message field present (though it may be the empty
string on a matched line), comes from a non-blank line preserved in `text`,
and when no pattern matches the record carries only the original line as
text and message. -/
theorem C8_parser_totality (content : String) :
    ∀ seg ∈ parse_log content,
      seg.message.isSome = true ∧ isBlank seg.text = false ∧
      (parse_line seg.text = none →
        seg.timestamp = none ∧ seg.level = none ∧ seg.component = none ∧
          seg.message = some seg.text) := by
  intro seg hseg
  obtain ⟨line, _, hb, hcase⟩ := mem_parse_log_lines (splitlines content) seg hseg
  rcases hcase with ⟨r, hp, hseg'⟩ | ⟨hp, hseg'⟩
  · obtain ⟨ts, lvl, comp, msg, hr⟩ := parse_line_shape line r hp
    subst hseg'
    subst hr
    refine ⟨rfl, hb, fun hnone => ?_⟩
    rw [hp] at hnone
    exact absurd hnone (by simp)
  · subst hseg'
    exact ⟨rfl, hb, fun _ => ⟨rfl, rfl, rfl, rfl⟩⟩

/-- C8 (witness): the fallback record of the unmatched line
`"hello world"`. -/
theorem C8_parser_totality_witness :
    (⟨"hello world", none, none, none, some "hello world"⟩ : ParsedLine).message.isSome
        = true ∧
    isBlank (⟨"hello world", none, none, none, some "hello world"⟩ : ParsedLine).text
        = false ∧
    (parse_line (⟨"hello world", none, none, none,
        some "hello world"⟩ : ParsedLine).text = none →
      (⟨"hello world", none, none, none, some "hello world"⟩ : ParsedLine).timestamp = none ∧
      (⟨"hello world", none, none, none, some "hello world"⟩ : ParsedLine).level = none ∧
      (⟨"hello world", none, none, none, some "hello world"⟩ : ParsedLine).component = none ∧
      (⟨"hello world", none, none, none, some "hello world"⟩ : ParsedLine).message
        = some (⟨"hello world", none, none, none,
            some "hello world"⟩ : ParsedLine).text) :=
  C8_parser_totality "hello world"
    ⟨"hello world", none, none, none, some "hello world"⟩ (by decide)

end LineParserTheorems

section ConversationTheorems

open PcapAnalyzer

/-- `mkConvOut` only adds derived fields: the accumulated ones are
untouched. -/
theorem mkConvOut_fields (c : ConvAcc) :
    (mkConvOut c).ip_a = c.ip_a ∧ (mkConvOut c).ip_b = c.ip_b ∧
    (mkConvOut c).bytes = c.bytes ∧
    (mkConvOut c).a_to_b_bytes = c.a_to_b_bytes ∧
    (mkConvOut c).b_to_a_bytes = c.b_to_a_bytes := by
  simp [mkConvOut]

/-- `updateConv` never changes the endpoints. -/
theorem updateConv_ips (src : String) (plen : Nat) (t : Rat) (c : ConvAcc) :
    (updateConv src plen t c).ip_a = c.ip_a ∧ (updateConv src plen t c).ip_b = c.ip_b := by
  unfold updateConv
  by_cases h : src = c.ip_a <;> simp [h]

/-- `updateConv` adds the packet to the totals and to exactly one
direction. -/
theorem updateConv_sums (src : String) (plen : Nat) (t : Rat) (c : ConvAcc) :
    (updateConv src plen t c).bytes = c.bytes + plen ∧
    (updateConv src plen t c).packets = c.packets + 1 ∧
    (updateConv src plen t c).a_to_b_bytes + (updateConv src plen t c).b_to_a_bytes
      = c.a_to_b_bytes + c.b_to_a_bytes + plen ∧
    (updateConv src plen t c).a_to_b_packets + (updateConv src plen t c).b_to_a_packets
      = c.a_to_b_packets + c.b_to_a_packets + 1 := by
  unfold updateConv
  by_cases h : src = c.ip_a <;> simp [h] <;> omega

/-- A fresh conversation satisfies the invariant under its key. -/
theorem initConv_facts (src dst : String) (t : Rat) :
    (initConv src dst t).a_to_b_bytes + (initConv src dst t).b_to_a_bytes
      = (initConv src dst t).bytes ∧
    (initConv src dst t).a_to_b_packets + (initConv src dst t).b_to_a_packets
      = (initConv src dst t).packets ∧
    (initConv src dst t).ip_a ≤ (initConv src dst t).ip_b ∧
    convKey src dst = (initConv src dst t).ip_a ++ "_" ++ (initConv src dst t).ip_b := by
  unfold initConv convKey
  by_cases h : src.data < dst.data
  · refine ⟨by simp, by simp, ?_, by simp [h]⟩
    simp only [if_pos h]
    rw [String.le_iff_toList_le]
    exact le_of_lt h
  · refine ⟨by simp, by simp, ?_, by simp [h]⟩
    simp only [if_neg h]
    rw [String.le_iff_toList_le]
    exact le_of_not_lt h

/-- One step of the conversation loop preserves the invariant. -/
theorem convStep_inv (convs : List (String × ConvAcc)) (p : Packet)
    (h : ConvInvariant convs) : ConvInvariant (convStep convs p) := by
  obtain ⟨hmem, hnodup⟩ := h
  unfold convStep
  cases hip : p.ip with
  | none => exact ⟨hmem, hnodup⟩
  | some il =>
    have hinv1 : ConvInvariant
        (if convs.any fun kc => kc.1 == convKey il.src il.dst then convs
          else convs ++ [(convKey il.src il.dst, initConv il.src il.dst p.time)]) := by
      by_cases hin : convs.any fun kc => kc.1 == convKey il.src il.dst
      · rw [if_pos hin]; exact ⟨hmem, hnodup⟩
      · rw [if_neg hin]
        constructor
        · intro kc hkc
          rcases List.mem_append.mp hkc with hkc | hkc
          · exact hmem kc hkc
          · have hkc' : kc = (convKey il.src il.dst, initConv il.src il.dst p.time) := by
              simpa using hkc
            subst hkc'
            exact initConv_facts il.src il.dst p.time
        · rw [List.map_append, List.map_cons, List.map_nil, List.nodup_append]
          refine ⟨hnodup, by simp, ?_⟩
          intro a ha hb
          have hb' : a = convKey il.src il.dst := by simpa using hb
          subst hb'
          apply hin
          rw [List.any_eq_true]
          obtain ⟨kc, hkc, hfst⟩ := List.mem_map.mp ha
          exact ⟨kc, hkc, by simp [hfst]⟩
    obtain ⟨hmem1, hnodup1⟩ := hinv1
    constructor
    · intro kc' hkc'
      obtain ⟨kc, hkc, hf⟩ := List.mem_map.mp hkc'
      obtain ⟨h1, h2, h3, h4⟩ := hmem1 kc hkc
      by_cases hk : kc.1 == convKey il.src il.dst
      · rw [if_pos hk] at hf
        subst hf
        dsimp only
        obtain ⟨hipa, hipb⟩ := updateConv_ips il.src p.len p.time kc.2
        obtain ⟨hby, hpk, hbs, hps⟩ := updateConv_sums il.src p.len p.time kc.2
        refine ⟨by omega, by omega, ?_, ?_⟩
        · rw [hipa, hipb]; exact h3
        · rw [hipa, hipb]; exact h4
      · rw [if_neg hk] at hf
        subst hf
        exact ⟨h1, h2, h3, h4⟩
    · have hfst : (List.map Prod.fst
          (List.map (fun kc => if kc.1 == convKey il.src il.dst
            then (kc.1, updateConv il.src p.len p.time kc.2) else kc)
            (if convs.any fun kc => kc.1 == convKey il.src il.dst then convs
              else convs ++ [(convKey il.src il.dst, initConv il.src il.dst p.time)])))
          = (List.map Prod.fst
            (if convs.any fun kc => kc.1 == convKey il.src il.dst then convs
              else convs ++ [(convKey il.src il.dst, initConv il.src il.dst p.time)])) := by
        rw [List.map_map]
        apply List.map_congr_left
        intro kc _
        simp only [Function.comp_apply]
        by_cases hk : (kc.1 == convKey il.src il.dst) = true
        · rw [if_pos hk]
        · rw [if_neg hk]
      rw [hfst]
      exact hnodup1

/-- The fold over all packets preserves the invariant. -/
theorem foldl_convStep_inv (packets : List Packet) :
    ∀ init, ConvInvariant init → ConvInvariant (packets.foldl convStep init) := by
  induction packets with
  | nil => intro init h; exact h
  | cons p rest ih =>
    intro init h
    exact ih _ (convStep_inv init p h)

/-- The empty conversation table satisfies the invariant. -/
theorem ConvInvariant_nil : ConvInvariant [] := ⟨by simp, by simp⟩

/-- C5 (amended): every conversation record balances
`a_to_b_bytes + b_to_a_bytes = bytes` and has canonically ordered endpoints
`ip_a ≤ ip_b` (equality exactly when a packet's source and destination
coincide), and no two records share an endpoint pair, also under swapping
of the two directions — packets in both directions yield one record. -/
theorem C5_conversation_invariants (packets : List Packet) :
    (∀ c ∈ analyze_conversations packets,
      c.a_to_b_bytes + c.b_to_a_bytes = c.bytes ∧ c.ip_a ≤ c.ip_b) ∧
    (analyze_conversations packets).Pairwise (fun c d =>
      ¬((c.ip_a = d.ip_a ∧ c.ip_b = d.ip_b) ∨
        (c.ip_a = d.ip_b ∧ c.ip_b = d.ip_a))) := by
  obtain ⟨hmem, hnodup⟩ := foldl_convStep_inv packets [] ConvInvariant_nil
  constructor
  · intro c hc
    unfold analyze_conversations at hc
    have hc' := List.mem_of_mem_take hc
    rw [List.mem_mergeSort] at hc'
    obtain ⟨kc, hkc, hmk⟩ := List.mem_map.mp hc'
    obtain ⟨h1, h2, h3, h4⟩ := hmem kc hkc
    obtain ⟨hia, hib, hbytes, hab, hba⟩ := mkConvOut_fields kc.2
    rw [← hmk]
    rw [hia, hib, hbytes, hab, hba]
    exact ⟨h1, h3⟩
  · unfold analyze_conversations
    have hp1 : ((packets.foldl convStep []).map fun kc => mkConvOut kc.2).Pairwise
        (fun c d => ¬((c.ip_a = d.ip_a ∧ c.ip_b = d.ip_b) ∨
          (c.ip_a = d.ip_b ∧ c.ip_b = d.ip_a))) := by
      rw [List.pairwise_map]
      have hnd : (List.map Prod.fst (packets.foldl convStep [])).Nodup := hnodup
      rw [List.Nodup, List.pairwise_map] at hnd
      refine hnd.imp_of_mem ?_
      intro kc kc' hkc hkc' hne hcontra
      obtain ⟨_, _, h3, h4⟩ := hmem kc hkc
      obtain ⟨_, _, h3', h4'⟩ := hmem kc' hkc'
      obtain ⟨hia, hib, _, _, _⟩ := mkConvOut_fields kc.2
      obtain ⟨hia', hib', _, _, _⟩ := mkConvOut_fields kc'.2
      rw [hia, hib, hia', hib'] at hcontra
      rcases hcontra with ⟨ha, hb⟩ | ⟨ha, hb⟩
      · exact hne (by rw [h4, h4', ha, hb])
      · have h5 : kc.2.ip_a ≤ kc'.2.ip_a := by rw [← hb]; exact h3
        have h6 : kc'.2.ip_a ≤ kc.2.ip_a := by
          rw [← ha] at h3'
          exact h3'
        have hAA : kc.2.ip_a = kc'.2.ip_a := le_antisymm h5 h6
        apply hne
        rw [h4, h4', hb, ← ha, hAA]
    have hsymm : ∀ {x y : ConvOut},
        (¬((x.ip_a = y.ip_a ∧ x.ip_b = y.ip_b) ∨ (x.ip_a = y.ip_b ∧ x.ip_b = y.ip_a))) →
        (¬((y.ip_a = x.ip_a ∧ y.ip_b = x.ip_b) ∨ (y.ip_a = x.ip_b ∧ y.ip_b = x.ip_a))) := by
      intro x y hxy hyx
      apply hxy
      rcases hyx with ⟨ha, hb⟩ | ⟨ha, hb⟩
      · exact Or.inl ⟨ha.symm, hb.symm⟩
      · exact Or.inr ⟨hb.symm, ha.symm⟩
    have hp2 := ((List.mergeSort_perm
      ((packets.foldl convStep []).map fun kc => mkConvOut kc.2)
      (fun a b => decide (b.bytes ≤ a.bytes))).pairwise_iff hsymm).mpr hp1
    exact hp2.sublist (List.take_sublist 50 _)

end ConversationTheorems

section ConversationConcreteTheorems

open PcapAnalyzer

/-- A packet from an address to itself yields a conversation with
`ip_a = ip_b`. -/
theorem analyze_conversations_selfPkt :
    analyze_conversations [selfPkt]
      = [mkConvOut ⟨"10.0.0.1", "10.0.0.1", 1, 100, 0, 0, 1, 0, 100, 0⟩] := by
  unfold analyze_conversations
  dsimp only
  have h1 : [selfPkt].foldl convStep []
      = [("10.0.0.1_10.0.0.1", ⟨"10.0.0.1", "10.0.0.1", 1, 100, 0, 0, 1, 0, 100, 0⟩)] := by
    decide
  rw [h1, List.map_cons, List.map_nil, List.mergeSort_singleton]
  rfl

/-- C5 (counterexample): strict ordering `ip_a < ip_b` fails — a packet
whose source equals its destination produces a record with
`ip_a = ip_b = "10.0.0.1"`. -/
theorem C5_counterexample :
    ∃ c ∈ analyze_conversations [selfPkt], ¬c.ip_a < c.ip_b := by
  rw [analyze_conversations_selfPkt]
  refine ⟨mkConvOut ⟨"10.0.0.1", "10.0.0.1", 1, 100, 0, 0, 1, 0, 100, 0⟩, by simp, ?_⟩
  have h : (mkConvOut ⟨"10.0.0.1", "10.0.0.1", 1, 100, 0, 0, 1, 0, 100, 0⟩).ip_a
      = (mkConvOut ⟨"10.0.0.1", "10.0.0.1", 1, 100, 0, 0, 1, 0, 100, 0⟩).ip_b := by decide
  rw [h]
  exact lt_irrefl _

/-- Scenario E produces exactly one conversation record. -/
theorem analyze_conversations_scenarioE :
    analyze_conversations scenarioE
      = [mkConvOut ⟨"10.0.0.1", "10.0.0.2", 2, 100, 0, 1, 1, 1, 40, 60⟩] := by
  unfold analyze_conversations
  dsimp only
  have h1 : scenarioE.foldl convStep []
      = [("10.0.0.1_10.0.0.2", ⟨"10.0.0.1", "10.0.0.2", 2, 100, 0, 1, 1, 1, 40, 60⟩)] := by
    decide
  rw [h1, List.map_cons, List.map_nil, List.mergeSort_singleton]
  rfl

/-- C5 (witness): the single record of scenario E balances its byte
counters and has ordered endpoints. -/
theorem C5_conversation_invariants_witness :
    (mkConvOut ⟨"10.0.0.1", "10.0.0.2", 2, 100, 0, 1, 1, 1, 40, 60⟩).a_to_b_bytes +
        (mkConvOut ⟨"10.0.0.1", "10.0.0.2", 2, 100, 0, 1, 1, 1, 40, 60⟩).b_to_a_bytes
      = (mkConvOut ⟨"10.0.0.1", "10.0.0.2", 2, 100, 0, 1, 1, 1, 40, 60⟩).bytes ∧
    (mkConvOut ⟨"10.0.0.1", "10.0.0.2", 2, 100, 0, 1, 1, 1, 40, 60⟩).ip_a
      ≤ (mkConvOut ⟨"10.0.0.1", "10.0.0.2", 2, 100, 0, 1, 1, 1, 40, 60⟩).ip_b :=
  (C5_conversation_invariants scenarioE).1 _
    (by rw [analyze_conversations_scenarioE]; simp)

end ConversationConcreteTheorems
